import Mathlib

/-!
Shallow embedding of the keyframe interpolation and playback engine of the
NFL play analysis app.

Sources embedded here:
* `getCurrentInterpolatedFrame` (the Interpolator): clamping, bracketing via
  `findIndex`, the guarded interpolation fraction, linear interpolation of
  the ball, and per-team id-matched player interpolation.
* the `requestAnimationFrame` loop body (the Playback Clock and Media Sync
  Bridge): per-tick advancement of the authoritative current time, clamping
  to the last keyframe's `timeOffset`, auto-stop, and tolerance-gated media
  drift correction.
* `handleSeek` (the Scrub Controller).

JavaScript numbers are modelled as rationals; a JavaScript `TypeError`
(reading a property of `undefined`) is modelled by the `Except.error`
result of `loopTick` and by the final fallthrough arm of
`interpolateFrames`, which is proved unreachable.
-/

/-- A 2D position (field-relative yards), as in `types.ts`. -/
structure Position where
  x : ℚ
  y : ℚ
deriving DecidableEq, Repr

/-- A tracked player, as in `types.ts`. -/
structure Player where
  id : String
  x : ℚ
  y : ℚ
deriving DecidableEq, Repr

/-- A position sample at one instant, as in `types.ts`. -/
structure Keyframe where
  timeOffset : ℚ
  ball : Position
  teamRed : List Player
  teamBlue : List Player
deriving DecidableEq, Repr

/-- The full analysis result, as in `types.ts`. -/
structure AnalysisResult where
  summary : String
  formation : String
  playType : String
  keyframes : List Keyframe
deriving DecidableEq, Repr

/-- The media element collaborator: only its writable clock matters here
(`videoRef.current.currentTime`). -/
structure MediaElement where
  currentTime : ℚ
deriving DecidableEq, Repr

/-- The helper `const lerp = (start, end, t) => start + (end - start) * t;`
(line 45 of the app component). -/
def lerp (start stop t : ℚ) : ℚ :=
  start + (stop - start) * t

/-- The interpolation fraction of lines 40-42:
`duration === 0 ? 0 : elapsed / duration`. -/
def interpFraction (time : ℚ) (prevFrame nextFrame : Keyframe) : ℚ :=
  let duration := nextFrame.timeOffset - prevFrame.timeOffset
  let elapsed := time - prevFrame.timeOffset
  if duration = 0 then 0 else elapsed / duration

/-- One step of the per-team mapping of lines 55-73: look the player's `id`
up in the next keyframe's team list; interpolate if found, else keep the
previous sample unchanged. -/
def interpolatePlayer (t : ℚ) (nextTeam : List Player) (p1 : Player) : Player :=
  match nextTeam.find? (fun p => p.id == p1.id) with
  | none => p1
  | some p2 => { id := p1.id, x := lerp p1.x p2.x t, y := lerp p1.y p2.y t }

/-- The synthesized frame built from a bracketing pair (lines 40-80 of the
app component). -/
def blendFrames (time : ℚ) (prevFrame nextFrame : Keyframe) : Keyframe :=
  let t := interpFraction time prevFrame nextFrame
  { timeOffset := time
  , ball :=
      { x := lerp prevFrame.ball.x nextFrame.ball.x t
      , y := lerp prevFrame.ball.y nextFrame.ball.y t }
  , teamRed := prevFrame.teamRed.map (interpolatePlayer t nextFrame.teamRed)
  , teamBlue := prevFrame.teamBlue.map (interpolatePlayer t nextFrame.teamBlue) }

/-- The JavaScript `Array.prototype.findIndex`, with `-1` rendered as `none`. -/
def findIdxA {α : Type} (p : α → Bool) : List α → Option Nat
  | [] => none
  | a :: as => if p a then some 0 else Option.map (· + 1) (findIdxA p as)

/-- The body of `getCurrentInterpolatedFrame` after the emptiness check,
operating on the keyframe list (lines 25-81 of the app component).  The
final fallthrough arm models the `TypeError` a JavaScript out-of-range
index would raise; it is proved unreachable below. -/
def interpolateFrames (time : ℚ) (frames : List Keyframe) : Option Keyframe :=
  match frames with
  | [] => none
  | f0 :: rest =>
    let lastF := (f0 :: rest).getLast (List.cons_ne_nil f0 rest)
    if time ≤ f0.timeOffset then some f0
    else if lastF.timeOffset ≤ time then some lastF
    else
      match findIdxA (fun f => decide (time < f.timeOffset)) (f0 :: rest) with
      | none => some lastF
      | some nextIndex =>
        match (f0 :: rest).get? (nextIndex - 1), (f0 :: rest).get? nextIndex with
        | some prevFrame, some nextFrame => some (blendFrames time prevFrame nextFrame)
        | _, _ => none

/-- The function `getCurrentInterpolatedFrame(time, result)` (lines 24-81): the
Interpolator.  The TypeScript `result` parameter is non-nullable, so the
defensive `!result` test cannot fire and only the emptiness test remains;
it is folded into `interpolateFrames`. -/
def getCurrentInterpolatedFrame (time : ℚ) (result : AnalysisResult) : Option Keyframe :=
  interpolateFrames time result.keyframes

/-- The component state the animation loop and the scrubber touch:
`currentTime`, `isPlaying`, `playbackSpeed`, `lastFrameTimeRef`,
`videoRef` and `analysisResult`. -/
structure PlaybackState where
  currentTime : ℚ
  isPlaying : Bool
  playbackSpeed : ℚ
  lastFrameTime : ℚ
  video : Option MediaElement
  analysisResult : Option AnalysisResult
deriving DecidableEq, Repr

/-- One invocation of `loop(timestamp)` (lines 122-145): the Playback Clock
tick together with its Media Sync Bridge side effect.  The read of the last
keyframe's `timeOffset` happens before the media sync, as in the source;
on an empty keyframe list that read is `undefined.timeOffset`, modelled as
`Except.error`. -/
def loopTick (s : PlaybackState) (timestamp : ℚ) : Except String PlaybackState :=
  let last0 := if s.lastFrameTime = 0 then timestamp else s.lastFrameTime
  let deltaTime := (timestamp - last0) / 1000
  let s1 : PlaybackState := { s with lastFrameTime := timestamp }
  match s1.isPlaying, s1.analysisResult with
  | true, some result =>
    match result.keyframes.getLast? with
    | none => Except.error "TypeError: cannot read timeOffset of undefined"
    | some lastKf =>
      let maxTime := lastKf.timeOffset
      let nextTime := s1.currentTime + deltaTime * s1.playbackSpeed
      let s2 : PlaybackState :=
        match s1.video with
        | some v =>
          if 1/2 < |v.currentTime - nextTime| then { s1 with video := some ⟨nextTime⟩ }
          else s1
        | none => s1
      if maxTime ≤ nextTime then
        Except.ok { s2 with currentTime := maxTime, isPlaying := false }
      else
        Except.ok { s2 with currentTime := nextTime }
  | _, _ => Except.ok s1

/-- The handler `handleSeek(val)` (lines 159-164): the Scrub Controller. -/
def handleSeek (s : PlaybackState) (val : ℚ) : PlaybackState :=
  let s1 : PlaybackState := { s with currentTime := val }
  match s1.video with
  | some _ => { s1 with video := some ⟨val⟩ }
  | none => s1

/-! ### Lemmas about `findIdxA` (the `findIndex` model) -/

theorem findIdxA_lt_length {α : Type} {p : α → Bool} {l : List α} {i : ℕ}
    (h : findIdxA p l = some i) : i < l.length := by
  induction l generalizing i with
  | nil => simp [findIdxA] at h
  | cons a as ih =>
    simp only [findIdxA] at h
    by_cases hpa : p a
    · rw [if_pos hpa] at h
      cases h
      simp
    · rw [if_neg hpa] at h
      match hfind : findIdxA p as with
      | none => rw [hfind] at h; simp at h
      | some j =>
        rw [hfind] at h
        simp only [Option.map_some'] at h
        cases h
        have := ih hfind
        simp only [List.length_cons]
        omega

theorem findIdxA_get {α : Type} {p : α → Bool} {l : List α} {i : ℕ}
    (h : findIdxA p l = some i) (hi : i < l.length) : p (l.get ⟨i, hi⟩) = true := by
  induction l generalizing i with
  | nil => simp [findIdxA] at h
  | cons a as ih =>
    simp only [findIdxA] at h
    by_cases hpa : p a
    · rw [if_pos hpa] at h
      cases h
      simpa using hpa
    · rw [if_neg hpa] at h
      match hfind : findIdxA p as with
      | none => rw [hfind] at h; simp at h
      | some j =>
        rw [hfind] at h
        simp only [Option.map_some'] at h
        cases h
        have hj := findIdxA_lt_length hfind
        simpa using ih hfind hj

theorem findIdxA_get_of_lt {α : Type} {p : α → Bool} {l : List α} {i j : ℕ}
    (h : findIdxA p l = some i) (hj : j < l.length) (hji : j < i) :
    p (l.get ⟨j, hj⟩) = false := by
  induction l generalizing i j with
  | nil => simp [findIdxA] at h
  | cons a as ih =>
    simp only [findIdxA] at h
    by_cases hpa : p a
    · rw [if_pos hpa] at h
      cases h
      omega
    · rw [if_neg hpa] at h
      match hfind : findIdxA p as with
      | none => rw [hfind] at h; simp at h
      | some i' =>
        rw [hfind] at h
        simp only [Option.map_some'] at h
        cases h
        match j with
        | 0 => simpa using hpa
        | j' + 1 =>
          have hj' : j' < as.length := by
            simp only [List.length_cons] at hj
            omega
          simpa using ih hfind hj' (by omega)

theorem findIdxA_exists {α : Type} {p : α → Bool} {l : List α} {a : α}
    (ha : a ∈ l) (hp : p a = true) : ∃ i, findIdxA p l = some i := by
  induction l with
  | nil => cases ha
  | cons b bs ih =>
    simp only [findIdxA]
    by_cases hpb : p b
    · exact ⟨0, by rw [if_pos hpb]⟩
    · rw [if_neg hpb]
      have hab : a ∈ bs := by
        cases ha with
        | head => exact absurd hp (by simpa using hpb)
        | tail _ h => exact h
      obtain ⟨i, hi⟩ := ih hab
      exact ⟨i + 1, by rw [hi]; rfl⟩

theorem findIdxA_eq_some_of {α : Type} {p : α → Bool} {l : List α} {i : ℕ}
    (hi : i < l.length) (ht : p (l.get ⟨i, hi⟩) = true)
    (hf : ∀ j, ∀ hj : j < l.length, j < i → p (l.get ⟨j, hj⟩) = false) :
    findIdxA p l = some i := by
  induction l generalizing i with
  | nil => simp at hi
  | cons a as ih =>
    simp only [findIdxA]
    match i with
    | 0 =>
      rw [if_pos (by simpa using ht)]
    | i' + 1 =>
      have hpa : p a = false := hf 0 (by simp) (by omega)
      rw [if_neg (by simp [hpa])]
      have hi' : i' < as.length := by
        simp only [List.length_cons] at hi
        omega
      have ht' : p (as.get ⟨i', hi'⟩) = true := by simpa using ht
      have hf' : ∀ j, ∀ hj : j < as.length, j < i' → p (as.get ⟨j, hj⟩) = false := by
        intro j hj hji
        have := hf (j + 1) (by simp only [List.length_cons]; omega) (by omega)
        simpa using this
      rw [ih hi' ht' hf']
      rfl

/-! ### Lemmas about the per-player interpolation step -/

theorem interpolatePlayer_id (t : ℚ) (team : List Player) (p1 : Player) :
    (interpolatePlayer t team p1).id = p1.id := by
  cases hf : team.find? (fun p => p.id == p1.id) <;>
    simp [interpolatePlayer, hf]

theorem interpolatePlayer_zero (team : List Player) (p1 : Player) :
    interpolatePlayer 0 team p1 = p1 := by
  cases hf : team.find? (fun p => p.id == p1.id) <;>
    simp [interpolatePlayer, hf, lerp]

theorem interpolatePlayer_not_found (t : ℚ) (team : List Player) (p1 : Player)
    (h : team.find? (fun p => p.id == p1.id) = none) :
    interpolatePlayer t team p1 = p1 := by
  simp [interpolatePlayer, h]

theorem map_interpolatePlayer_ids (t : ℚ) (team : List Player) (l : List Player) :
    (l.map (interpolatePlayer t team)).map Player.id = l.map Player.id := by
  rw [List.map_map]
  exact List.map_congr_left (fun p _ => interpolatePlayer_id t team p)

/-! ### The bracket characterization of the Interpolator -/

theorem interpolateFrames_bracket {time : ℚ} {frames : List Keyframe} (h0 : frames ≠ [])
    (h1 : (frames.head h0).timeOffset < time)
    (h2 : time < (frames.getLast h0).timeOffset) :
    ∃ j, ∃ hj : j + 1 < frames.length,
      (frames.get ⟨j, Nat.lt_of_succ_lt hj⟩).timeOffset ≤ time ∧
      time < (frames.get ⟨j + 1, hj⟩).timeOffset ∧
      interpolateFrames time frames =
        some (blendFrames time (frames.get ⟨j, Nat.lt_of_succ_lt hj⟩)
          (frames.get ⟨j + 1, hj⟩)) := by
  cases frames with
  | nil => exact absurd rfl h0
  | cons f0 rest =>
    have h1' : f0.timeOffset < time := by simpa using h1
    have h2' : time < ((f0 :: rest).getLast (List.cons_ne_nil f0 rest)).timeOffset := h2
    have hplast : (fun f => decide (time < f.timeOffset))
        ((f0 :: rest).getLast (List.cons_ne_nil f0 rest)) = true := by
      simpa using h2'
    obtain ⟨i, hfind⟩ :=
      findIdxA_exists (p := fun f => decide (time < f.timeOffset))
        (List.getLast_mem (List.cons_ne_nil f0 rest)) hplast
    have hilen : i < (f0 :: rest).length := findIdxA_lt_length hfind
    have hi0 : i ≠ 0 := by
      intro hzero
      subst hzero
      have := findIdxA_get hfind hilen
      simp only [List.get] at this
      rw [decide_eq_true_eq] at this
      exact absurd this (not_lt.mpr (le_of_lt h1'))
    obtain ⟨j, rfl⟩ : ∃ j, i = j + 1 := ⟨i - 1, by omega⟩
    have hprev := findIdxA_get_of_lt hfind (Nat.lt_of_succ_lt hilen) (Nat.lt_succ_self j)
    rw [decide_eq_false_iff_not, not_lt] at hprev
    have hnext := findIdxA_get hfind hilen
    rw [decide_eq_true_eq] at hnext
    refine ⟨j, hilen, hprev, hnext, ?_⟩
    simp only [interpolateFrames, hfind, Nat.add_sub_cancel,
      List.get?_eq_get (Nat.lt_of_succ_lt hilen), List.get?_eq_get hilen,
      if_neg (not_le.mpr h1'), if_neg (not_le.mpr h2')]

/-! ### Clamping helpers -/

theorem interpolateFrames_clamp_low {time : ℚ} {frames : List Keyframe} (h0 : frames ≠ [])
    (h : time ≤ (frames.head h0).timeOffset) :
    interpolateFrames time frames = some (frames.head h0) := by
  cases frames with
  | nil => exact absurd rfl h0
  | cons f0 rest =>
    simp only [List.head_cons] at h ⊢
    simp only [interpolateFrames, if_pos h]

theorem interpolateFrames_clamp_high {time : ℚ} {frames : List Keyframe} (h0 : frames ≠ [])
    (hlow : (frames.head h0).timeOffset < time)
    (hhigh : (frames.getLast h0).timeOffset ≤ time) :
    interpolateFrames time frames = some (frames.getLast h0) := by
  cases frames with
  | nil => exact absurd rfl h0
  | cons f0 rest =>
    simp only [List.head_cons] at hlow
    simp only [interpolateFrames, if_neg (not_le.mpr hlow), if_pos hhigh]

/-! ### Concrete sample data used by witnesses and counterexamples -/

/-- A single keyframe whose timestamp is not `0`. -/
def kfLate : Keyframe := ⟨1, ⟨2, 3⟩, [], []⟩

/-- Earlier bracketing keyframe: ball at the origin, one red player `QB`,
one blue player `LB`. -/
def kfP : Keyframe := ⟨0, ⟨0, 0⟩, [⟨"QB", 3, 4⟩], [⟨"LB", 7, 8⟩]⟩

/-- Later bracketing keyframe: ball at `(10, 0)`; the red `QB` has vanished
and a new red `WR1` has appeared; the blue `LB` persists. -/
def kfN : Keyframe := ⟨2, ⟨10, 0⟩, [⟨"WR1", 9, 9⟩], [⟨"LB", 6, 6⟩]⟩

/-- A keyframe sharing `kfP`'s timestamp `0`, for the duplicate-timestamp
(zero-duration bracket) scenario. -/
def kfDup : Keyframe := ⟨0, ⟨10, 10⟩, [], [⟨"S", 1, 2⟩]⟩

/-- C1, counterexample.  With the sorted singleton sequence `[kfLate]`
(timestamp `1`) and query time `0 ≤ 1`, `interpolate` does NOT return a
frame whose `timeOffset` echoes the query time `0`: it returns the first
keyframe verbatim, timestamp `1` included. -/
theorem clamp_does_not_echo_query_time :
    interpolateFrames 0 [kfLate] ≠ some { kfLate with timeOffset := 0 } ∧
    interpolateFrames 0 [kfLate] = some kfLate := by
  constructor
  · decide
  · decide

/-- C1 (amended): for every non-empty sorted keyframe sequence, if the
query time is `≤` the first keyframe's `timeOffset`, `interpolate` returns
the first keyframe verbatim — its own `timeOffset` included, which is not
overwritten with the query time; if the query time is beyond the first
timestamp and `≥` the last keyframe's `timeOffset`, it returns the last
keyframe verbatim.  So the output never extrapolates outside the sampled
range. -/
theorem interpolate_clamps_to_endpoints {time : ℚ} {frames : List Keyframe}
    (hs : List.Pairwise (fun a b => a.timeOffset ≤ b.timeOffset) frames)
    (h0 : frames ≠ []) :
    (time ≤ (frames.head h0).timeOffset →
      interpolateFrames time frames = some (frames.head h0)) ∧
    ((frames.head h0).timeOffset < time → (frames.getLast h0).timeOffset ≤ time →
      interpolateFrames time frames = some (frames.getLast h0)) :=
  ⟨fun h => interpolateFrames_clamp_low h0 h,
   fun hlow hhigh => interpolateFrames_clamp_high h0 hlow hhigh⟩

/-- C1, witness: on `[kfLate]` (timestamp `1`), querying at `0` returns the
first keyframe verbatim and querying at `5` returns the last keyframe
verbatim. -/
theorem interpolate_clamps_to_endpoints_witness :
    interpolateFrames 0 [kfLate] = some kfLate ∧
    interpolateFrames 5 [kfLate] = some kfLate := by
  constructor
  · exact (interpolate_clamps_to_endpoints (by simp) (by simp)).1 (by decide)
  · exact (interpolate_clamps_to_endpoints (by simp) (by simp)).2 (by decide) (by decide)

/-- C6: `interpolate` returns `null` exactly on the empty keyframe
sequence; on every non-empty sequence and every query time it returns a
frame (in particular the bracketing index arithmetic never goes out of
bounds). -/
theorem interpolate_none_iff_empty (time : ℚ) (frames : List Keyframe) :
    interpolateFrames time frames = none ↔ frames = [] := by
  cases frames with
  | nil => simp [interpolateFrames]
  | cons f0 rest =>
    simp only [List.cons_ne_nil, iff_false]
    intro hnone
    by_cases hle : time ≤ f0.timeOffset
    · simp [interpolateFrames, if_pos hle] at hnone
    · by_cases hge : ((f0 :: rest).getLast (List.cons_ne_nil f0 rest)).timeOffset ≤ time
      · simp [interpolateFrames, if_neg hle, if_pos hge] at hnone
      · obtain ⟨j, hj, _, _, heq⟩ :=
          interpolateFrames_bracket (List.cons_ne_nil f0 rest)
            (by simpa using not_le.mp hle) (not_le.mp hge)
        rw [heq] at hnone
        exact Option.some_ne_none _ hnone

theorem interpolateFrames_eq_blend {time : ℚ} {frames : List Keyframe} (h0 : frames ≠ [])
    (h1 : (frames.head h0).timeOffset < time)
    (h2 : time < (frames.getLast h0).timeOffset)
    {j : ℕ} (hj : j + 1 < frames.length)
    (hfind : findIdxA (fun f => decide (time < f.timeOffset)) frames = some (j + 1)) :
    interpolateFrames time frames =
      some (blendFrames time (frames.get ⟨j, Nat.lt_of_succ_lt hj⟩)
        (frames.get ⟨j + 1, hj⟩)) := by
  cases frames with
  | nil => exact absurd rfl h0
  | cons f0 rest =>
    have h1' : f0.timeOffset < time := by simpa using h1
    have h2' : time < ((f0 :: rest).getLast (List.cons_ne_nil f0 rest)).timeOffset := h2
    simp only [interpolateFrames, hfind, Nat.add_sub_cancel,
      List.get?_eq_get (Nat.lt_of_succ_lt hj), List.get?_eq_get hj,
      if_neg (not_le.mpr h1'), if_neg (not_le.mpr h2')]

/-- C2: for every sorted keyframe sequence and every query time strictly
between the first and last timestamps, the Interpolator brackets the time
between two adjacent samples `prev` and `next` and outputs the ball at the
independent linear interpolation of `x` and `y` between `prev.ball` and
`next.ball` with fraction `(time - prev.timeOffset) /
(next.timeOffset - prev.timeOffset)`. -/
theorem interpolate_ball_is_linear {time : ℚ} {frames : List Keyframe}
    (hs : List.Pairwise (fun a b => a.timeOffset ≤ b.timeOffset) frames)
    (h0 : frames ≠ [])
    (h1 : (frames.head h0).timeOffset < time)
    (h2 : time < (frames.getLast h0).timeOffset) :
    ∃ j, ∃ hj : j + 1 < frames.length,
      let prev := frames.get ⟨j, Nat.lt_of_succ_lt hj⟩
      let next := frames.get ⟨j + 1, hj⟩
      prev.timeOffset ≤ time ∧ time < next.timeOffset ∧
      ∃ out, interpolateFrames time frames = some out ∧
        out.ball.x = prev.ball.x + (next.ball.x - prev.ball.x) *
          ((time - prev.timeOffset) / (next.timeOffset - prev.timeOffset)) ∧
        out.ball.y = prev.ball.y + (next.ball.y - prev.ball.y) *
          ((time - prev.timeOffset) / (next.timeOffset - prev.timeOffset)) := by
  obtain ⟨j, hj, hprev, hnext, heq⟩ := interpolateFrames_bracket h0 h1 h2
  refine ⟨j, hj, hprev, hnext, _, heq, ?_, ?_⟩ <;>
  · have hd : (frames.get ⟨j + 1, hj⟩).timeOffset -
        (frames.get ⟨j, Nat.lt_of_succ_lt hj⟩).timeOffset ≠ 0 :=
      sub_ne_zero.mpr (ne_of_gt (lt_of_le_of_lt hprev hnext))
    have hd2 : frames[j + 1].timeOffset - frames[j].timeOffset ≠ 0 := by
      simpa using hd
    simp [blendFrames, interpFraction, lerp, if_neg hd2]

/-- C2, witness: on `[kfP, kfN]` (timestamps `0` and `2`, balls `(0,0)` and
`(10,0)`) at query time `1`, the bracket is `(kfP, kfN)`, the output ball
is the linear interpolation, and concretely equals `(5, 0)`. -/
theorem interpolate_ball_is_linear_witness :
    (interpolateFrames 1 [kfP, kfN]).map (fun k => k.ball) = some ⟨5, 0⟩ ∧
    (∃ j, ∃ hj : j + 1 < [kfP, kfN].length,
      let prev := [kfP, kfN].get ⟨j, Nat.lt_of_succ_lt hj⟩
      let next := [kfP, kfN].get ⟨j + 1, hj⟩
      prev.timeOffset ≤ 1 ∧ (1 : ℚ) < next.timeOffset ∧
      ∃ out, interpolateFrames 1 [kfP, kfN] = some out ∧
        out.ball.x = prev.ball.x + (next.ball.x - prev.ball.x) *
          ((1 - prev.timeOffset) / (next.timeOffset - prev.timeOffset)) ∧
        out.ball.y = prev.ball.y + (next.ball.y - prev.ball.y) *
          ((1 - prev.timeOffset) / (next.timeOffset - prev.timeOffset))) := by
  constructor
  · norm_num [interpolateFrames, blendFrames, interpFraction, interpolatePlayer,
      findIdxA, lerp, kfP, kfN]
  · exact interpolate_ball_is_linear (by decide) (by decide) (by decide) (by decide)

theorem map_interpolatePlayer_zero (team : List Player) (l : List Player) :
    l.map (interpolatePlayer 0 team) = l := by
  induction l with
  | nil => rfl
  | cons p ps ih => simp [interpolatePlayer_zero, ih]

/-- C3: for every bracketing pair with equal timestamps the code defines
the interpolation fraction as `0` instead of dividing by zero, and the
blended frame is a well-defined rational frame — the previous keyframe's
ball and teams at the query time — rather than a `NaN`-poisoned or thrown
result. -/
theorem zero_duration_bracket_freezes {time : ℚ} {prevF nextF : Keyframe}
    (h : prevF.timeOffset = nextF.timeOffset) :
    interpFraction time prevF nextF = 0 ∧
    blendFrames time prevF nextF =
      { timeOffset := time, ball := prevF.ball,
        teamRed := prevF.teamRed, teamBlue := prevF.teamBlue } := by
  have hf : interpFraction time prevF nextF = 0 := by
    simp [interpFraction, h]
  refine ⟨hf, ?_⟩
  simp only [blendFrames, hf]
  simp [lerp, map_interpolatePlayer_zero]

/-- C3, witness: `kfP` and `kfDup` carry the same timestamp `0`; at query
time `1` the fraction is `0` and the blend freezes `kfP`'s positions. -/
theorem zero_duration_bracket_freezes_witness :
    interpFraction 1 kfP kfDup = 0 ∧
    blendFrames 1 kfP kfDup =
      { timeOffset := 1, ball := kfP.ball,
        teamRed := kfP.teamRed, teamBlue := kfP.teamBlue } :=
  @zero_duration_bracket_freezes 1 kfP kfDup (by decide)

/-- C4: for every sorted keyframe sequence and query time strictly inside
the sampled range, every entity of the bracketing `prev` keyframe's team
list whose `id` has no match in `next`'s corresponding team list appears in
the interpolated output frame itself — same `id`, same position, not
omitted. -/
theorem vanished_entity_kept_at_prev_position {time : ℚ} {frames : List Keyframe}
    (hs : List.Pairwise (fun a b => a.timeOffset ≤ b.timeOffset) frames)
    (h0 : frames ≠ [])
    (h1 : (frames.head h0).timeOffset < time)
    (h2 : time < (frames.getLast h0).timeOffset) :
    ∃ j, ∃ hj : j + 1 < frames.length,
      let prev := frames.get ⟨j, Nat.lt_of_succ_lt hj⟩
      let next := frames.get ⟨j + 1, hj⟩
      prev.timeOffset ≤ time ∧ time < next.timeOffset ∧
      ∃ out, interpolateFrames time frames = some out ∧
        (∀ p ∈ prev.teamRed, next.teamRed.find? (fun q => q.id == p.id) = none →
          p ∈ out.teamRed) ∧
        (∀ p ∈ prev.teamBlue, next.teamBlue.find? (fun q => q.id == p.id) = none →
          p ∈ out.teamBlue) := by
  obtain ⟨j, hj, hprev, hnext, heq⟩ := interpolateFrames_bracket h0 h1 h2
  refine ⟨j, hj, hprev, hnext, _, heq, ?_, ?_⟩
  · intro p hp hnone
    have hmem := List.mem_map_of_mem
      (interpolatePlayer (interpFraction time (frames.get ⟨j, Nat.lt_of_succ_lt hj⟩)
        (frames.get ⟨j + 1, hj⟩)) (frames.get ⟨j + 1, hj⟩).teamRed) hp
    rw [interpolatePlayer_not_found _ _ _ hnone] at hmem
    simpa [blendFrames] using hmem
  · intro p hp hnone
    have hmem := List.mem_map_of_mem
      (interpolatePlayer (interpFraction time (frames.get ⟨j, Nat.lt_of_succ_lt hj⟩)
        (frames.get ⟨j + 1, hj⟩)) (frames.get ⟨j + 1, hj⟩).teamBlue) hp
    rw [interpolatePlayer_not_found _ _ _ hnone] at hmem
    simpa [blendFrames] using hmem

/-- C4, witness: in `[kfP, kfN]` the red `QB` is present at time `0` and
absent at time `2`; at query time `1` the bracket keeps it, unchanged, in
the output. -/
theorem vanished_entity_kept_at_prev_position_witness :
    ∃ j, ∃ hj : j + 1 < [kfP, kfN].length,
      let prev := [kfP, kfN].get ⟨j, Nat.lt_of_succ_lt hj⟩
      let next := [kfP, kfN].get ⟨j + 1, hj⟩
      prev.timeOffset ≤ 1 ∧ (1 : ℚ) < next.timeOffset ∧
      ∃ out, interpolateFrames 1 [kfP, kfN] = some out ∧
        (∀ p ∈ prev.teamRed, next.teamRed.find? (fun q => q.id == p.id) = none →
          p ∈ out.teamRed) ∧
        (∀ p ∈ prev.teamBlue, next.teamBlue.find? (fun q => q.id == p.id) = none →
          p ∈ out.teamBlue) :=
  vanished_entity_kept_at_prev_position (by decide) (by decide) (by decide) (by decide)

/-- C5: over a strictly sorted keyframe sequence, (a) at every query time
strictly inside the sampled range the output frame's team id lists are
exactly the bracketing `prev` keyframe's id lists — so an id present only
in `next` does not appear; and (b) as soon as the query time equals any
sample's `timeOffset` (in particular `next`'s), the output frame's team id
lists are that sample's id lists — so the new ids become visible. -/
theorem new_ids_invisible_until_reached {time : ℚ} {frames : List Keyframe}
    (hs : List.Pairwise (fun a b => a.timeOffset < b.timeOffset) frames)
    (h0 : frames ≠ [])
    (h1 : (frames.head h0).timeOffset < time) :
    (time < (frames.getLast h0).timeOffset →
      ∃ j, ∃ hj : j + 1 < frames.length,
        (frames.get ⟨j, Nat.lt_of_succ_lt hj⟩).timeOffset ≤ time ∧
        time < (frames.get ⟨j + 1, hj⟩).timeOffset ∧
        ∃ out, interpolateFrames time frames = some out ∧
          out.teamRed.map Player.id =
            (frames.get ⟨j, Nat.lt_of_succ_lt hj⟩).teamRed.map Player.id ∧
          out.teamBlue.map Player.id =
            (frames.get ⟨j, Nat.lt_of_succ_lt hj⟩).teamBlue.map Player.id) ∧
    (∀ i, ∀ hi : i < frames.length, time = (frames.get ⟨i, hi⟩).timeOffset →
      ∃ out, interpolateFrames time frames = some out ∧
        out.teamRed.map Player.id = (frames.get ⟨i, hi⟩).teamRed.map Player.id ∧
        out.teamBlue.map Player.id = (frames.get ⟨i, hi⟩).teamBlue.map Player.id) := by
  constructor
  · intro h2
    obtain ⟨j, hj, hprev, hnext, heq⟩ := interpolateFrames_bracket h0 h1 h2
    exact ⟨j, hj, hprev, hnext, _, heq,
      map_interpolatePlayer_ids _ _ _, map_interpolatePlayer_ids _ _ _⟩
  · intro i hi htime
    by_cases hlast : i = frames.length - 1
    · subst hlast
      have hgl : frames.getLast h0 = frames.get ⟨frames.length - 1, hi⟩ := by
        simp [List.getLast_eq_getElem]
      have hge : (frames.getLast h0).timeOffset ≤ time := by
        rw [hgl, ← htime]
      have heq := interpolateFrames_clamp_high h0 h1 hge
      exact ⟨_, heq, by rw [hgl], by rw [hgl]⟩
    · have hj : i + 1 < frames.length := by omega
      have hnext_t : time < (frames.get ⟨i + 1, hj⟩).timeOffset := by
        have hstep := List.pairwise_iff_get.mp hs ⟨i, hi⟩ ⟨i + 1, hj⟩
          (by simp [Fin.mk_lt_mk])
        rw [htime]
        exact hstep
      have hfind : findIdxA (fun f => decide (time < f.timeOffset)) frames
          = some (i + 1) := by
        apply findIdxA_eq_some_of hj
        · simpa using hnext_t
        · intro k hk hki
          have hle : (frames.get ⟨k, hk⟩).timeOffset ≤ (frames.get ⟨i, hi⟩).timeOffset := by
            rcases Nat.lt_or_ge k i with hki' | hge'
            · exact le_of_lt (List.pairwise_iff_get.mp hs ⟨k, hk⟩ ⟨i, hi⟩
                (by simp [Fin.mk_lt_mk]; omega))
            · have hk_eq : k = i := by omega
              subst hk_eq
              exact le_refl _
          simp only [decide_eq_false_iff_not, not_lt]
          rw [htime]
          exact hle
      have h2 : time < (frames.getLast h0).timeOffset := by
        rcases Nat.lt_or_ge (i + 1) (frames.length - 1) with hlt | hge2
        · have hlast_idx : frames.length - 1 < frames.length := by omega
          have hstep := List.pairwise_iff_get.mp hs ⟨i + 1, hj⟩
            ⟨frames.length - 1, hlast_idx⟩ (by simp [Fin.mk_lt_mk]; omega)
          have : frames.getLast h0 = frames.get ⟨frames.length - 1, hlast_idx⟩ := by
            rw [List.getLast_eq_getElem, List.get_eq_getElem]
          rw [this]
          exact lt_trans hnext_t hstep
        · have hieq : frames.length - 1 = i + 1 := by omega
          have : frames.getLast h0 = frames.get ⟨i + 1, hj⟩ := by
            simp only [List.getLast_eq_getElem, List.get_eq_getElem]
            congr 1
          rw [this]
          exact hnext_t
      have heq := interpolateFrames_eq_blend h0 h1 h2 hj hfind
      exact ⟨_, heq, map_interpolatePlayer_ids _ _ _, map_interpolatePlayer_ids _ _ _⟩

/-- C5, witness: in `[kfP, kfN]`, the id `WR1` exists only in `kfN`; at
query time `1` (strictly inside the bracket) the output carries exactly
`kfP`'s ids (`QB`, `LB`) — no `WR1` — and at query time `2` (reaching
`kfN.timeOffset`) the output carries exactly `kfN`'s ids. -/
theorem new_ids_invisible_until_reached_witness :
    (∃ out, interpolateFrames 1 [kfP, kfN] = some out ∧
      out.teamRed.map Player.id = kfP.teamRed.map Player.id ∧
      out.teamBlue.map Player.id = kfP.teamBlue.map Player.id) ∧
    (∃ out, interpolateFrames 2 [kfP, kfN] = some out ∧
      out.teamRed.map Player.id = kfN.teamRed.map Player.id ∧
      out.teamBlue.map Player.id = kfN.teamBlue.map Player.id) := by
  constructor
  · obtain ⟨j, hj, -, -, out, heq, hr, hb⟩ :=
      (@new_ids_invisible_until_reached 1 [kfP, kfN]
        (by decide) (by decide) (by decide)).1 (by decide)
    have hj' : j + 1 < 2 := hj
    have hj0 : j = 0 := by omega
    subst hj0
    exact ⟨out, heq, hr, hb⟩
  · obtain ⟨out, heq, hr, hb⟩ :=
      (@new_ids_invisible_until_reached 2 [kfP, kfN]
        (by decide) (by decide) (by decide)).2 1 (by decide) (by decide)
    exact ⟨out, heq, hr, hb⟩

/-- C7: on every tick of the running Playback Clock over a non-empty
keyframe sequence, the authoritative current time advances by exactly
`elapsedRealSeconds * playbackRate` — with zero elapsed on the first tick
of a run (`lastFrameTime = 0`) — and never exceeds the last keyframe's
`timeOffset`: the updated time is the minimum of the advanced value and
that bound, and when the advanced value reaches or passes the bound the
time is clamped to it and the clock stops in the same step. -/
theorem clock_tick_advances_and_clamps (s : PlaybackState) (timestamp : ℚ)
    (r : AnalysisResult) (hp : s.isPlaying = true) (hr : s.analysisResult = some r)
    (hk : r.keyframes ≠ []) :
    ∃ s', loopTick s timestamp = Except.ok s' ∧
      (let elapsed := if s.lastFrameTime = 0 then 0
        else (timestamp - s.lastFrameTime) / 1000
       let nextTime := s.currentTime + elapsed * s.playbackSpeed
       let maxTime := (r.keyframes.getLast hk).timeOffset
       s'.currentTime = min nextTime maxTime ∧
       s'.currentTime ≤ maxTime ∧
       (maxTime ≤ nextTime → s'.isPlaying = false ∧ s'.currentTime = maxTime) ∧
       (nextTime < maxTime → s'.isPlaying = true ∧ s'.currentTime = nextTime)) := by
  have hgl : r.keyframes.getLast? = some (r.keyframes.getLast hk) :=
    List.getLast?_eq_getLast _ hk
  have hdelta : (timestamp - (if s.lastFrameTime = 0 then timestamp
      else s.lastFrameTime)) / 1000
      = (if s.lastFrameTime = 0 then 0 else (timestamp - s.lastFrameTime) / 1000) := by
    by_cases hlf : s.lastFrameTime = 0 <;> simp [hlf]
  simp only [loopTick, hp, hr, hgl, hdelta]
  rcases s.video with _ | v
  · by_cases hclamp : (r.keyframes.getLast hk).timeOffset
        ≤ s.currentTime + (if s.lastFrameTime = 0 then 0
          else (timestamp - s.lastFrameTime) / 1000) * s.playbackSpeed
    · refine ⟨_, by rw [if_pos hclamp], ?_, ?_, fun _ => ⟨rfl, rfl⟩, fun hlt => ?_⟩
      · exact (min_eq_right hclamp).symm
      · exact le_refl _
      · exact absurd hclamp (not_le.mpr hlt)
    · refine ⟨_, by rw [if_neg hclamp], ?_, ?_, fun hge => ?_, fun _ => ⟨rfl, ?_⟩⟩
      · exact (min_eq_left (le_of_lt (not_le.mp hclamp))).symm
      · exact le_of_lt (not_le.mp hclamp)
      · exact absurd hge hclamp
      · rfl
  · by_cases hsync : 1/2 < |v.currentTime - (s.currentTime
        + (if s.lastFrameTime = 0 then 0
          else (timestamp - s.lastFrameTime) / 1000) * s.playbackSpeed)| <;>
    [simp only [if_pos hsync]; simp only [if_neg hsync]] <;>
    · by_cases hclamp : (r.keyframes.getLast hk).timeOffset
          ≤ s.currentTime + (if s.lastFrameTime = 0 then 0
            else (timestamp - s.lastFrameTime) / 1000) * s.playbackSpeed
      · refine ⟨_, by rw [if_pos hclamp], ?_, ?_, fun _ => ⟨rfl, rfl⟩, fun hlt => ?_⟩
        · exact (min_eq_right hclamp).symm
        · exact le_refl _
        · exact absurd hclamp (not_le.mpr hlt)
      · refine ⟨_, by rw [if_neg hclamp], ?_, ?_, fun hge => ?_, fun _ => ⟨rfl, ?_⟩⟩
        · exact (min_eq_left (le_of_lt (not_le.mp hclamp))).symm
        · exact le_of_lt (not_le.mp hclamp)
        · exact absurd hge hclamp
        · rfl

/-- The analysis result backing the concrete playback scenarios. -/
def resC : AnalysisResult := ⟨"", "", "", [kfP, kfN]⟩

/-- A running clock state mid-run: current time `0`, rate `2`, previous
tick at `1000` ms. -/
def sRun : PlaybackState := ⟨0, true, 2, 1000, none, some resC⟩

/-- C7, witness: ticking `sRun` at timestamp `1500` ms (elapsed `0.5` s,
rate `2`) advances the current time to exactly `1`, below the final
timestamp `2`, so the clock keeps running. -/
theorem clock_tick_advances_and_clamps_witness :
    ∃ s', loopTick sRun 1500 = Except.ok s' ∧
      s'.currentTime = 1 ∧ s'.isPlaying = true := by
  obtain ⟨s', heq, hrest⟩ :=
    clock_tick_advances_and_clamps sRun 1500 resC rfl rfl (by decide)
  obtain ⟨-, -, -, hinside⟩ := hrest
  obtain ⟨hplay, hct⟩ := hinside (by norm_num [sRun, resC, kfN])
  refine ⟨s', heq, ?_, hplay⟩
  rw [hct]
  norm_num [sRun]

/-- A running clock whose analysis result is present but carries an empty
keyframe sequence. -/
def sEmpty : PlaybackState := ⟨0, true, 1, 0, none, some ⟨"", "", "", []⟩⟩

/-- A running clock with no analysis result at all. -/
def sNoRes : PlaybackState := ⟨3, true, 1, 7, none, none⟩

/-- C8, counterexample: with the clock running and an analysis result
whose keyframe sequence is empty, a tick is not a no-op: the loop reads
`keyframes[keyframes.length - 1].timeOffset` of an empty array — an access
to a last keyframe that does not exist, a `TypeError` — modelled by the
error result. -/
theorem empty_keyframes_tick_errors :
    loopTick sEmpty 16 = Except.error "TypeError: cannot read timeOffset of undefined" :=
  rfl

/-- C8 (amended): a Playback Clock tick is a no-op (recording only the
tick timestamp) whenever the clock is stopped or the analysis result is
absent (`null`) — that is the code's actual guard; but when the clock is
running with a present analysis result whose backing keyframe sequence is
empty, the tick does attempt to read the missing last keyframe's
`timeOffset` and fails with a type error rather than no-op-ing. -/
theorem tick_noop_guard_is_result_presence (s : PlaybackState) (timestamp : ℚ) :
    (s.analysisResult = none →
      loopTick s timestamp = Except.ok { s with lastFrameTime := timestamp }) ∧
    (s.isPlaying = false →
      loopTick s timestamp = Except.ok { s with lastFrameTime := timestamp }) ∧
    (∀ r, s.isPlaying = true → s.analysisResult = some r → r.keyframes = [] →
      loopTick s timestamp
        = Except.error "TypeError: cannot read timeOffset of undefined") := by
  refine ⟨?_, ?_, ?_⟩
  · intro h
    cases hb : s.isPlaying <;> simp [loopTick, h, hb]
  · intro h
    cases ha : s.analysisResult <;> simp [loopTick, h, ha]
  · intro r hp hr hk
    simp [loopTick, hp, hr, hk]

/-- C8, witness: a tick with the result absent only records the timestamp,
while a tick on `sEmpty` (running, present result, empty keyframes)
errors. -/
theorem tick_noop_guard_is_result_presence_witness :
    loopTick sNoRes 16 = Except.ok { sNoRes with lastFrameTime := 16 } ∧
    loopTick sEmpty 16 = Except.error "TypeError: cannot read timeOffset of undefined" :=
  ⟨(tick_noop_guard_is_result_presence sNoRes 16).1 rfl,
   (tick_noop_guard_is_result_presence sEmpty 16).2.2 ⟨"", "", "", []⟩ rfl rfl rfl⟩

/-- C9: on a Playback Clock tick (running, non-empty keyframes, media
element present), the Media Sync Bridge issues a correction to the media
element's clock if and only if the drift between the media time and the
tick's advanced authoritative time exceeds `0.5` seconds, and the
correction is a direct assignment of that authoritative time. -/
theorem media_sync_drift_gate (s : PlaybackState) (timestamp : ℚ)
    (r : AnalysisResult) (v : MediaElement)
    (hp : s.isPlaying = true) (hr : s.analysisResult = some r)
    (hk : r.keyframes ≠ []) (hv : s.video = some v) :
    ∃ s', loopTick s timestamp = Except.ok s' ∧
      (let elapsed := if s.lastFrameTime = 0 then 0
        else (timestamp - s.lastFrameTime) / 1000
       let nextTime := s.currentTime + elapsed * s.playbackSpeed
       (|v.currentTime - nextTime| ≤ 1/2 → s'.video = some v) ∧
       (1/2 < |v.currentTime - nextTime| → s'.video = some ⟨nextTime⟩)) := by
  have hgl : r.keyframes.getLast? = some (r.keyframes.getLast hk) :=
    List.getLast?_eq_getLast _ hk
  have hdelta : (timestamp - (if s.lastFrameTime = 0 then timestamp
      else s.lastFrameTime)) / 1000
      = (if s.lastFrameTime = 0 then 0 else (timestamp - s.lastFrameTime) / 1000) := by
    by_cases hlf : s.lastFrameTime = 0 <;> simp [hlf]
  simp only [loopTick, hp, hr, hgl, hdelta, hv]
  by_cases hsync : 1/2 < |v.currentTime - (s.currentTime
      + (if s.lastFrameTime = 0 then 0
        else (timestamp - s.lastFrameTime) / 1000) * s.playbackSpeed)| <;>
  [simp only [if_pos hsync]; simp only [if_neg hsync]] <;>
  · by_cases hclamp : (r.keyframes.getLast hk).timeOffset
        ≤ s.currentTime + (if s.lastFrameTime = 0 then 0
          else (timestamp - s.lastFrameTime) / 1000) * s.playbackSpeed
    · refine ⟨_, by rw [if_pos hclamp], fun hno => ?_, fun hyes => ?_⟩ <;>
        first
          | rfl
          | exact absurd hsync (not_lt.mpr hno)
          | exact absurd hyes (not_lt.mpr hno)
          | exact absurd hyes hsync
    · refine ⟨_, by rw [if_neg hclamp], fun hno => ?_, fun hyes => ?_⟩ <;>
        first
          | rfl
          | exact absurd hsync (not_lt.mpr hno)
          | exact absurd hyes (not_lt.mpr hno)
          | exact absurd hyes hsync

/-- Two samples spanning `0` to `20` seconds, so that a tick at
authoritative time `10` is not clamped. -/
def resLong : AnalysisResult := ⟨"", "", "", [⟨0, ⟨0, 0⟩, [], []⟩, ⟨20, ⟨0, 0⟩, [], []⟩]⟩

/-- First tick of a run at authoritative time `10` with the media clock at
`10.2` — within the `0.5` s tolerance. -/
def sNear : PlaybackState := ⟨10, true, 1, 0, some ⟨51/5⟩, some resLong⟩

/-- Same, but with the media clock at `10.9` — beyond tolerance. -/
def sFar : PlaybackState := ⟨10, true, 1, 0, some ⟨109/10⟩, some resLong⟩

/-- C9, witness (Scenario E): with authoritative time `10.0`, a media time
of `10.2` is left untouched, while a media time of `10.9` is corrected by
direct assignment to `10.0`. -/
theorem media_sync_drift_gate_witness :
    (∃ s', loopTick sNear 100 = Except.ok s' ∧ s'.video = some ⟨51/5⟩) ∧
    (∃ s', loopTick sFar 100 = Except.ok s' ∧ s'.video = some ⟨10⟩) := by
  constructor
  · obtain ⟨s', heq, hrest⟩ :=
      media_sync_drift_gate sNear 100 resLong ⟨51/5⟩ rfl rfl (by decide) rfl
    obtain ⟨hno, -⟩ := hrest
    refine ⟨s', heq, ?_⟩
    apply hno
    norm_num [sNear, abs_of_nonneg]
  · obtain ⟨s', heq, hrest⟩ :=
      media_sync_drift_gate sFar 100 resLong ⟨109/10⟩ rfl rfl (by decide) rfl
    obtain ⟨-, hyes⟩ := hrest
    refine ⟨s', heq, ?_⟩
    have h10 : sFar.currentTime + (if sFar.lastFrameTime = 0 then 0
        else ((100 : ℚ) - sFar.lastFrameTime) / 1000) * sFar.playbackSpeed = 10 := by
      norm_num [sFar]
    rw [hyes (by norm_num [sFar, abs_of_nonneg]), h10]

/-- C10: for every requested time, the Scrub Controller sets the
authoritative current time to exactly that value (no rate/elapsed math),
unconditionally seeks the present media element to it (no tolerance
check), and leaves the clock's running/stopped flag unchanged. -/
theorem scrub_sets_time_seeks_and_preserves_state (s : PlaybackState) (val : ℚ)
    (v : MediaElement) (hv : s.video = some v) :
    (handleSeek s val).currentTime = val ∧
    (handleSeek s val).video = some ⟨val⟩ ∧
    (handleSeek s val).isPlaying = s.isPlaying := by
  simp [handleSeek, hv]

/-- A running clock with a media element at time `5`. -/
def sSeek : PlaybackState := ⟨10, true, 1, 0, some ⟨5⟩, none⟩

/-- C10, witness (Scenario F): scrubbing `sSeek` (running) to `3` sets the
authoritative time to `3`, seeks the media element to `3`, and the clock
is still running. -/
theorem scrub_sets_time_seeks_and_preserves_state_witness :
    (handleSeek sSeek 3).currentTime = 3 ∧
    (handleSeek sSeek 3).video = some ⟨3⟩ ∧
    (handleSeek sSeek 3).isPlaying = sSeek.isPlaying :=
  scrub_sets_time_seeks_and_preserves_state sSeek 3 ⟨5⟩ rfl
